import Mathlib

/-!
Verification of the transaction-processing core of the financial-disclosure
consolidator (categorization, duplicate detection, running balances, anomaly
detection).  Python `Decimal` amounts are modelled as `ℚ` (exact decimal
arithmetic), `datetime.date` as `ℤ` (day ordinal: comparison and day
differences are all the code uses), and strings as Lean `String`.
Run-local UUIDs are not modelled: a `duplicate_of` reference is rendered as
the referenced transaction's content, which is the only cross-run-stable
identity the code's own sort keys rely on.  Python's `sorted` (a stable sort)
is modelled by `List.insertionSort`, which is also stable, over the same key.
-/

namespace FinCon

/-! ## Python `str` primitives

Structural (kernel-computable) models of the Python string methods the core
uses: `str.lower`, `str.upper`, `str.strip`, `str.startswith`, substring
containment (`in`), all ASCII-faithful. -/

/-- Python `str.lower()`. -/
def strLower (s : String) : String := ⟨s.data.map Char.toLower⟩

/-- Python `str.upper()`. -/
def strUpper (s : String) : String := ⟨s.data.map Char.toUpper⟩

/-- Python `str.strip()`: drop leading and trailing whitespace. -/
def strTrim (s : String) : String :=
  ⟨((s.data.dropWhile (·.isWhitespace)).reverse.dropWhile (·.isWhitespace)).reverse⟩

/-- Contiguous-sublist check over character lists. -/
def listContainsSub (needle : List Char) : List Char → Bool
  | [] => needle.isEmpty
  | c :: rest => needle.isPrefixOf (c :: rest) || listContainsSub needle rest

/-- Python `needle in hay` substring containment. -/
def strContainsSub (hay needle : String) : Bool :=
  listContainsSub needle.data hay.data

/-- Python `hay.startswith(needle)`. -/
def strStartsWith (hay needle : String) : Bool :=
  needle.data.isPrefixOf hay.data

/-! ## models/category.py : MatchResult -/

/-- `MatchResult` dataclass (models/category.py).  `confidence` is a Python
float in the source; modelled as `ℚ`. -/
structure MatchResult where
  matched : Bool
  confidence : ℚ
  matched_by : String
  matched_value : String
  factors : List String := []
deriving DecidableEq

/-- `MatchResult.__post_init__`: constructing a `MatchResult` raises
`ValueError` unless `0.0 <= confidence <= 1.0`.  Modelled as a checked
constructor returning `Except`. -/
def mkMatchResult (matched : Bool) (confidence : ℚ) (matched_by : String)
    (matched_value : String) (factors : List String) : Except String MatchResult :=
  if 0 ≤ confidence ∧ confidence ≤ 1 then
    .ok ⟨matched, confidence, matched_by, matched_value, factors⟩
  else
    .error "Confidence must be between 0.0 and 1.0"

/-! ## models/transaction.py : Transaction

The dataclass is split into the immutable content written by the normalizer
(`TransactionData`, which also carries `raw_data.check_number`, the only
`raw_data` field the core reads) and the record with the computed fields the
pipeline stages mutate (`Transaction`).  The run-local UUID `id` is omitted;
`duplicate_of` stores the referenced original's content instead. -/
structure TransactionData where
  date : ℤ
  description : String
  amount : ℚ
  accountId : String
  accountName : String
  sourceFile : String
  sourceLine : Option ℕ := none
  checkNumber : Option String := none
deriving DecidableEq

/-- `Transaction`: content plus the categorization / balance / duplicate /
anomaly fields mutated in place by the pipeline (models/transaction.py). -/
structure Transaction where
  data : TransactionData
  category : Option String := none
  subcategory : Option String := none
  isUncategorized : Bool := true
  categorySource : String := "default"
  categoryRuleId : Option String := none
  confidenceScore : ℚ := 0
  confidenceFactors : List String := []
  matchedPattern : Option String := none
  runningBalance : Option ℚ := none
  isDuplicate : Bool := false
  duplicateOf : Option TransactionData := none
  isAnomaly : Bool := false
  anomalyReasons : List String := []
deriving DecidableEq

/-- `Transaction.assign_category` (models/transaction.py). -/
def Transaction.assignCategory (t : Transaction) (categoryId : String)
    (source : String) (subcategoryId : Option String) (ruleId : Option String)
    (confidence : ℚ) (confidenceFactors : List String)
    (matchedPattern : Option String) : Transaction :=
  { t with
    category := some categoryId
    subcategory := subcategoryId
    categorySource := source
    categoryRuleId := ruleId
    isUncategorized := false
    confidenceScore := confidence
    confidenceFactors := confidenceFactors
    matchedPattern := matchedPattern }

/-- `Transaction.flag_as_duplicate` (models/transaction.py); the original is
referenced by content instead of by run-local UUID. -/
def Transaction.flagAsDuplicate (t : Transaction) (original : TransactionData) :
    Transaction :=
  { t with isDuplicate := true, duplicateOf := some original }

/-! ## Canonical deterministic sort key

deduplicator.py line 78 and balance_calculator.py line 71 sort by
`(t.date, t.description, t.amount, t.source_file, t.source_line or 0)`. -/

/-- The canonical sort key `(date, description, amount, source_file,
source_line or 0)`, ordered lexicographically as Python orders tuples.
Strings enter the key as their character lists, which carry the same
code-point lexicographic order as Python `str` comparison. -/
def canonKey (d : TransactionData) : ℤ ×ₗ (List Char ×ₗ (ℚ ×ₗ (List Char ×ₗ ℕ))) :=
  toLex (d.date, toLex (d.description.data, toLex (d.amount,
    toLex (d.sourceFile.data, d.sourceLine.getD 0))))

/-- Comparison of transactions by the canonical key. -/
def canonLE (a b : Transaction) : Prop := canonKey a.data ≤ canonKey b.data

instance : DecidableRel canonLE :=
  fun a b => inferInstanceAs (Decidable (canonKey a.data ≤ canonKey b.data))

instance : IsTotal Transaction canonLE := ⟨fun a b => le_total (canonKey a.data) (canonKey b.data)⟩

instance : IsTrans Transaction canonLE := ⟨fun _ _ _ => le_trans⟩

/-! ## processing/deduplicator.py -/

/-- The configuration of `Deduplicator.__init__`: description-similarity
threshold (default 0.9, written `mkRat 9 10`) and date tolerance in days (default 1).  `simRatio`
stands for the external `difflib.SequenceMatcher(None, a, b).ratio()` call in
`_description_similarity`: it is Python-stdlib code, not part of this
repository, so it is kept as an opaque parameter of the model. -/
structure Deduplicator where
  simRatio : String → String → ℚ
  similarityThreshold : ℚ := mkRat 9 10
  dateToleranceDays : ℕ := 1

/-- `Deduplicator._description_similarity`: normalize both descriptions
(lower-case, strip), return 1.0 on exact equality, else the
`SequenceMatcher` ratio. -/
def Deduplicator.descriptionSimilarity (dd : Deduplicator) (desc1 desc2 : String) : ℚ :=
  let d1 := strTrim (strLower desc1)
  let d2 := strTrim (strLower desc2)
  if d1 = d2 then 1 else dd.simRatio d1 d2

/-- The check-number guard in `_are_duplicates`: `check1 and check2 and
check1 != check2` — both present, both non-empty (Python truthiness of str),
and different. -/
def checksConflict (c1 c2 : Option String) : Bool :=
  match c1, c2 with
  | some s1, some s2 => !(s1 == "") && !(s2 == "") && !(s1 == s2)
  | _, _ => false

/-- `Deduplicator._are_duplicates`: same account, no conflicting check
numbers, exact same amount, dates within tolerance, description similarity
over the 0.95 same-day bar or the configured general bar otherwise. -/
def Deduplicator.areDuplicates (dd : Deduplicator) (t1 t2 : TransactionData) : Bool :=
  if t1.accountId ≠ t2.accountId then false
  else if checksConflict t1.checkNumber t2.checkNumber then false
  else if t1.amount ≠ t2.amount then false
  else if dd.dateToleranceDays < (t1.date - t2.date).natAbs then false
  else
    let similarity := dd.descriptionSimilarity t1.description t2.description
    if t1.date = t2.date then
      if similarity < mkRat 95 100 then false else true
    else if similarity < dd.similarityThreshold then false
    else true

/-- The inner loop of `find_duplicates` (lines 87-93): compare the fixed
earlier transaction `t1` against every later transaction of the sorted group
and flag the qualifying ones that are not already flagged. -/
def Deduplicator.innerPass (dd : Deduplicator) (t1 : TransactionData)
    (rest : List Transaction) : List Transaction :=
  rest.map fun t2 =>
    if dd.areDuplicates t1 t2.data && !t2.isDuplicate then
      t2.flagAsDuplicate t1
    else t2

/-- Fuel-indexed helper for the outer loop of `find_duplicates`; the fuel is
only a structural-termination device (`innerPass` preserves length, so fuel
`l.length` always suffices). -/
def Deduplicator.outerPassAux (dd : Deduplicator) : ℕ → List Transaction → List Transaction
  | 0, l => l
  | _ + 1, [] => []
  | fuel + 1, t1 :: rest =>
    if t1.isDuplicate then t1 :: dd.outerPassAux fuel rest
    else t1 :: dd.outerPassAux fuel (dd.innerPass t1.data rest)

/-- The outer loop of `find_duplicates` (lines 83-93): walk the sorted group;
a transaction already flagged as a duplicate is skipped as the earlier side
(`if txn1.is_duplicate: continue`); otherwise it is compared against all
later transactions. -/
def Deduplicator.outerPass (dd : Deduplicator) (l : List Transaction) : List Transaction :=
  dd.outerPassAux l.length l

/-- The `(account_id, amount)` partition key of `find_duplicates`. -/
def partKey (t : Transaction) : String × ℚ := (t.data.accountId, t.data.amount)

/-- `Deduplicator.find_duplicates`: partition by `(account_id, amount)` in
first-appearance order (Python dict insertion order), skip partitions with
fewer than two members, sort each partition by the canonical key with the
stable sort, run the pairwise flagging pass.  The code mutates transactions
in place and returns the input list; the model returns the same multiset of
transactions grouped by partition. -/
def Deduplicator.findDuplicates (dd : Deduplicator) (transactions : List Transaction) :
    List Transaction :=
  ((transactions.map partKey).dedup).flatMap fun key =>
    let group := transactions.filter fun t => partKey t = key
    if group.length < 2 then group
    else dd.outerPass (group.insertionSort canonLE)

/-! ## models/category.py : regex-safety validator (ReDoS defense) -/

/-- A regex quantifier character `+`, `*` or `?`. -/
def isQuantChar (c : Char) : Bool := c == '+' || c == '*' || c == '?'

/-- One attempt of the `_NESTED_QUANTIFIER_PATTERN` search, placed right
after an opening parenthesis: a run of non-`)` characters containing a
quantifier, the closing `)`, then either another quantifier or a bounded
`{[0-9,]+}` suffix. -/
def nestedQuantHere (l : List Char) : Bool :=
  let body := l.takeWhile fun c => !(c == ')')
  match l.drop body.length with
  | ')' :: after =>
    body.any isQuantChar &&
      (match after with
       | [] => false
       | c :: t =>
         if isQuantChar c then true
         else if c == '{' then
           let ds := t.takeWhile fun ch => ch.isDigit || ch == ','
           !ds.isEmpty &&
             (match t.drop ds.length with
              | '}' :: _ => true
              | _ => false)
         else false)
  | _ => false

/-- `_NESTED_QUANTIFIER_PATTERN.search`: does the pattern contain a
quantified group that is itself quantified (optionally via `{n,m}`)
anywhere?  The Python detector inspects raw characters (it does not honour
escaping), and so does this model. -/
def hasNestedQuant : List Char → Bool
  | [] => false
  | c :: rest => (c == '(' && nestedQuantHere rest) || hasNestedQuant rest

/-- `DANGEROUS_PATTERN_SIGNATURES` (models/category.py lines 42-48). -/
def dangerousPatternSignatures : List String :=
  ["(\\w+)+", "(.*)*", "(.+)+", "([^\"]+)+", "(\\s+)+"]

/-- `MAX_PATTERN_LENGTH` (models/category.py line 38). -/
def maxPatternLength : ℕ := 500

/-- `_is_safe_pattern` (models/category.py): reject over-long patterns,
structurally nested quantifiers, and known dangerous literal signatures.
The source also returns a reason string, which is only logged. -/
def isSafePattern (pattern : String) : Bool :=
  if maxPatternLength < pattern.length then false
  else if hasNestedQuant pattern.data then false
  else if dangerousPatternSignatures.any (fun d => strContainsSub pattern d) then false
  else true

/-! ## Word-boundary search

Both `CategoryRule.matches` (word-boundary keyword mode) and
`AnomalyDetector._is_fee` run `re.search(r"\b" + re.escape(kw) + r"\b", s)`:
an occurrence of the literal keyword with a `\b` word/non-word transition at
each end.  Word characters are `[A-Za-z0-9_]` (ASCII view of `\w`). -/

/-- A regex word character (`\w`, ASCII). -/
def isWordChar (c : Char) : Bool := c.isAlphanum || c == '_'

/-- Whether position `k` of the character list holds a word character
(out-of-range counts as non-word). -/
def wordAt (l : List Char) (k : ℕ) : Bool :=
  match l[k]? with
  | some c => isWordChar c
  | none => false

/-- `\b` holds at position `k`: the wordness changes between `k-1` and `k`
(the virtual characters beyond the ends are non-word). -/
def boundaryAt (l : List Char) (k : ℕ) : Bool :=
  (if k = 0 then false else wordAt l (k - 1)) != wordAt l k

/-- The needle occurs verbatim at position `i` of the haystack. -/
def occursAt (needle hay : List Char) (i : ℕ) : Bool :=
  (hay.drop i).take needle.length == needle

/-- `re.search(r"\b" + re.escape(needle) + r"\b", hay)`. -/
def wbSearch (needle hay : String) : Bool :=
  (List.range (hay.data.length + 1)).any fun i =>
    occursAt needle.data hay.data i && boundaryAt hay.data i &&
      boundaryAt hay.data (i + needle.data.length)

/-! ## Exact-decimal rounding helpers -/

/-- `x * scale` rounded to an integer, ties to even — the rounding both
Python `round(x, k)` and `Decimal.quantize` (default `ROUND_HALF_EVEN`)
apply, expressed on the scaled value. -/
def roundHalfEvenScaled (q : ℚ) (scale : ℤ) : ℤ :=
  let a : ℤ := q.num * scale
  let b : ℤ := (q.den : ℤ)
  let fl : ℤ := Int.fdiv a b
  let r : ℤ := a - fl * b
  if 2 * r < b then fl
  else if b < 2 * r then fl + 1
  else if fl % 2 = 0 then fl
  else fl + 1

/-- Python `round(x, 3)` on the confidence value. -/
def round3 (q : ℚ) : ℚ := mkRat (roundHalfEvenScaled q 1000) 1000

/-- `Decimal.quantize(Decimal("0.01"))`, used by the fingerprint. -/
def quantize2 (q : ℚ) : ℚ := mkRat (roundHalfEvenScaled q 100) 100

/-! ## models/category.py : CategoryRule -/

/-- `MatchMode` enum (models/category.py). -/
inductive MatchMode where
  | substring
  | wordBoundary
deriving DecidableEq

/-- A compiled regex pattern: the pattern string (`re.Pattern.pattern`) plus
its `search` truthiness on a description.  `re.compile`/`re.search` are
Python-stdlib services, kept opaque. -/
structure CompiledPattern where
  pat : String
  search : String → Bool

/-- `CategoryRule` dataclass (models/category.py).  `_compiled_patterns` is
the cached compiled list produced by `__post_init__` (see
`mkCategoryRule`). -/
structure CategoryRule where
  id : String
  categoryId : String
  subcategoryId : Option String := none
  keywords : List String := []
  regexPatterns : List String := []
  amountMin : Option ℚ := none
  amountMax : Option ℚ := none
  accountIds : List String := []
  priority : ℤ := 0
  isActive : Bool := true
  matchMode : MatchMode := .substring
  compiledPatterns : List CompiledPattern := []

/-- `CategoryRule.__post_init__`: validate each regex pattern with
`_is_safe_pattern`, then compile it; rejected or non-compiling patterns are
dropped (with a warning) rather than failing the rule.  `compile` stands for
`re.compile(pattern, re.IGNORECASE)`: `none` models `re.error`. -/
def mkCategoryRule (compile : String → Option (String → Bool)) (rule : CategoryRule) :
    CategoryRule :=
  { rule with
    compiledPatterns :=
      rule.regexPatterns.filterMap fun pattern =>
        if isSafePattern pattern then (compile pattern).map fun f => ⟨pattern, f⟩
        else none }

/-- The regex loop of `CategoryRule.matches` (lines 311-319): first compiled
pattern whose `search` hits, reported as `self.regex_patterns[i]` when the
index is in range, else the compiled pattern's own text. -/
def findRegexMatch (patterns : List String) (description : String) :
    List CompiledPattern → ℕ → Option String
  | [], _ => none
  | cp :: rest, i =>
    if cp.search description then some (patterns.getD i cp.pat)
    else findRegexMatch patterns description rest (i + 1)

/-- `CategoryRule._calculate_confidence`: base confidence by match type with
capped bonuses, a priority bonus above 50, rounded to three decimals.
Returns the confidence and the accumulated factor strings.  Numeric factor
text is rendered with `toString` in place of Python string interpolation. -/
def CategoryRule.calculateConfidence (rule : CategoryRule)
    (matchedKeyword : Option String) (matchedPattern : Option String)
    (matchModeUsed : Option String) (description : String) : ℚ × List String :=
  let bf : ℚ × List String :=
    match matchedPattern with
    | some mp =>
      if strStartsWith mp "^" then
        let base : ℚ := mkRat 92 100
        let fs := ["Anchored regex match: " ++ mp]
        let pl := mp.length
        let step :=
          if 10 < pl then
            (min 1 (base + mkRat 4 100), fs ++ ["Long pattern (" ++ toString pl ++ " chars)"])
          else (base, fs)
        if 20 < pl then (min 1 (step.1 + mkRat 4 100), step.2) else step
      else
        let base : ℚ := mkRat 85 100
        let fs := ["Regex pattern match: " ++ mp]
        if strContainsSub mp "\\b" then
          (min (mkRat 98 100) (base + mkRat 5 100), fs ++ ["Word boundary in pattern"])
        else (base, fs)
    | none =>
      match matchedKeyword with
      | some kw =>
        let descriptionLower := strLower description
        let kwLower := strLower kw
        if matchModeUsed = some "word_boundary" then
          let base : ℚ := mkRat 77 100
          let fs := ["Word boundary keyword: " ++ kw]
          let step :=
            if strStartsWith descriptionLower kwLower then
              (min (mkRat 95 100) (base + mkRat 10 100), fs ++ ["Keyword at description start"])
            else (base, fs)
          if 8 < kw.length then
            (min (mkRat 95 100) (step.1 + mkRat 5 100),
              step.2 ++ ["Long keyword (" ++ toString kw.length ++ " chars)"])
          else step
        else
          let base : ℚ := mkRat 70 100
          let fs := ["Substring keyword: " ++ kw]
          let step :=
            if strStartsWith descriptionLower kwLower then
              (min (mkRat 88 100) (base + mkRat 10 100), fs ++ ["Keyword at description start"])
            else (base, fs)
          if 10 < kw.length then
            (min (mkRat 88 100) (step.1 + mkRat 5 100),
              step.2 ++ ["Long keyword (" ++ toString kw.length ++ " chars)"])
          else step
      | none =>
        let base : ℚ := mkRat 50 100
        let fs := ["Matched by amount/account filter only"]
        match rule.amountMin, rule.amountMax with
        | some mn, some mx =>
          let rangeSize := mx - mn
          if 0 < rangeSize ∧ rangeSize < 100 then
            (min (mkRat 70 100) (base + mkRat 15 100),
              fs ++ ["Narrow amount range: $" ++ toString mn ++ "-$" ++ toString mx])
          else (base, fs)
        | _, _ => (base, fs)
  let withPriority :=
    if 50 < rule.priority then
      let priorityBonus := min (mkRat 5 100) (mkRat (rule.priority - 50) 1000)
      (min 1 (bf.1 + priorityBonus), bf.2 ++ ["High priority rule: " ++ toString rule.priority])
    else bf
  (round3 withPriority.1, withPriority.2)

/-- `CategoryRule.matches`: account filter, absolute-amount window, then
keyword and/or regex criteria (either suffices when both are specified; a
rule with no criteria at all matches everything), returning a scored
`MatchResult` or `None`. -/
def CategoryRule.matchesFn (rule : CategoryRule) (description : String)
    (amount : ℚ) (accountId : String) : Option MatchResult :=
  if rule.isActive = false then none
  else if !rule.accountIds.isEmpty && !(rule.accountIds.contains accountId) then none
  else
    let absAmount := |amount|
    let belowMin :=
      match rule.amountMin with
      | some mn => decide (absAmount < mn)
      | none => false
    let aboveMax :=
      match rule.amountMax with
      | some mx => decide (mx < absAmount)
      | none => false
    if belowMin then none
    else if aboveMax then none
    else
      let descriptionLower := strLower description
      let keywordRes : Option (String × String) :=
        rule.keywords.findSome? fun keyword =>
          let kwLower := strLower keyword
          match rule.matchMode with
          | .wordBoundary =>
            if wbSearch kwLower descriptionLower then some (keyword, "word_boundary") else none
          | .substring =>
            if strContainsSub descriptionLower kwLower then some (keyword, "substring") else none
      let keywordMatch := if rule.keywords.isEmpty then true else keywordRes.isSome
      let regexRes : Option String := findRegexMatch rule.regexPatterns description rule.compiledPatterns 0
      let regexMatch :=
        if !rule.compiledPatterns.isEmpty then regexRes.isSome
        else rule.regexPatterns.isEmpty
      let hasMatch :=
        if !rule.keywords.isEmpty && !rule.regexPatterns.isEmpty then keywordMatch || regexMatch
        else if !rule.keywords.isEmpty then keywordMatch
        else if !rule.regexPatterns.isEmpty then regexMatch
        else true
      if !hasMatch then none
      else
        let matchedKeyword := keywordRes.map Prod.fst
        let matchModeUsed := keywordRes.map Prod.snd
        let scored := rule.calculateConfidence matchedKeyword regexRes matchModeUsed description
        let mbv : String × String :=
          match regexRes with
          | some mp => ("regex", mp)
          | none =>
            match matchedKeyword with
            | some kw => ("keyword", kw)
            | none => ("filter", "amount/account filter")
        some ⟨true, scored.1, mbv.1, mbv.2, scored.2⟩

/-! ## Remaining models: Category, ManualOverride, CategoryCorrection, Account -/

/-- `CategoryType` enum (models/category.py). -/
inductive CategoryType where
  | income
  | expense
  | transfer
deriving DecidableEq

/-- `Category` dataclass (models/category.py). -/
structure Category where
  id : String
  name : String := ""
  categoryType : CategoryType := .expense
  parentId : Option String := none
  displayOrder : ℤ := 0
  color : Option String := none
deriving DecidableEq

/-- `ManualOverride` dataclass (models/category.py).  The source stores the
date as an ISO `YYYY-MM-DD` string and compares it against
`date_to_iso(txn.date)`; since `date_to_iso` is injective, the model
compares the dates themselves. -/
structure ManualOverride where
  date : ℤ
  amount : ℚ
  keywords : List String
  categoryId : String
  subcategoryId : Option String := none
  priority : ℤ := 0

/-- `ManualOverride.matches`: exact date, exact amount, and (when keywords
are given) at least one case-insensitive substring hit on the
description. -/
def ManualOverride.matchesOv (o : ManualOverride) (transactionDate : ℤ)
    (transactionAmount : ℚ) (description : String) : Bool :=
  if transactionDate ≠ o.date then false
  else if transactionAmount ≠ o.amount then false
  else if !o.keywords.isEmpty then
    o.keywords.any fun keyword => strContainsSub (strLower description) (strLower keyword)
  else true

/-- The transaction fingerprint value.  `Transaction.fingerprint` hashes the
string `date.isoformat() | normalized description | quantized amount |
account_id` with SHA-256 (truncated to 16 hex chars); the hash itself is
stdlib code, so the model uses the hashed quadruple directly — it is exactly
as collision-prone as the code intends (identical normalized data, and
nothing else, collides). -/
abbrev Fingerprint := ℤ × String × ℚ × String

/-- Description normalization inside `Transaction.fingerprint`:
`re.sub(r"\s+", " ", description.lower().strip())`, here as a structural
fold collapsing whitespace runs (the flag records whether the previous
character was whitespace). -/
def collapseWsAux : Bool → List Char → List Char
  | _, [] => []
  | prevWs, c :: rest =>
    if c.isWhitespace then
      if prevWs then collapseWsAux true rest
      else ' ' :: collapseWsAux true rest
    else c :: collapseWsAux false rest

/-- Lower-case, strip, collapse internal whitespace (fingerprint
normalization). -/
def normalizeDesc (s : String) : String :=
  ⟨collapseWsAux false (strTrim (strLower s)).data⟩

/-- `Transaction.fingerprint` (models/transaction.py): date, normalized
description, amount quantized to two decimals (ℚ has no negative zero, so
the `-0` normalization is automatic), account id. -/
def fingerprintOf (d : TransactionData) : Fingerprint :=
  (d.date, normalizeDesc d.description, quantize2 d.amount, d.accountId)

/-- Modelled from the spec: the `CategoryCorrection` record (imported from
`models/category.py` by config.py and correction_importer.py, but its class
body is not among the provided sources).  Spec §3: "CategoryCorrection:
fingerprint → category/subcategory assignment, imported from human-reviewed
output; highest precedence of all categorization sources."  Field names
follow the constructor call in correction_importer.py lines 368-376. -/
structure CategoryCorrection where
  fingerprint : Fingerprint
  categoryId : String
  subcategoryId : Option String := none
  originalCategoryId : Option String := none
  originalSource : String := ""
  correctedAt : String := ""
  sourceFile : String := ""
deriving DecidableEq

/-- `Account` dataclass (models/account.py); only the fields the processing
core reads are modelled (name/institution/display fields are output-only). -/
structure Account where
  id : String
  name : String := ""
  openingBalance : Option ℚ := some 0
  openingBalanceDate : Option ℤ := none

/-- Python `dict.get` over an association list (keys unique in the code). -/
def alookup {κ β : Type} [DecidableEq κ] (k : κ) : List (κ × β) → Option β
  | [] => none
  | (k2, v) :: rest => if k2 = k then some v else alookup k rest

/-- The slice of `Config` (config.py) the processing core consumes:
categories by id, rules already sorted by descending priority (the loader
uses a stable sort, so declaration order breaks ties), overrides sorted by
descending priority, corrections keyed by fingerprint, accounts by id. -/
structure Config where
  categories : List (String × Category) := []
  categoryRules : List CategoryRule := []
  manualOverrides : List ManualOverride := []
  corrections : List (Fingerprint × CategoryCorrection) := []
  accounts : List (String × Account) := []

/-- `Config.get_matching_correction`: fingerprint dictionary lookup. -/
def Config.getMatchingCorrection (cfg : Config) (fp : Fingerprint) :
    Option CategoryCorrection :=
  alookup fp cfg.corrections

/-! ## processing/categorizer.py -/

/-- The arguments of one `txn.assign_category(...)` call. -/
structure CategoryAssignment where
  categoryId : String
  source : String
  subcategoryId : Option String := none
  ruleId : Option String := none
  confidence : ℚ := 1
  confidenceFactors : List String := []
  matchedPattern : Option String := none
deriving DecidableEq

/-- Apply an assignment to a transaction via `assign_category`. -/
def Transaction.applyAssignment (t : Transaction) (a : CategoryAssignment) : Transaction :=
  t.assignCategory a.categoryId a.source a.subcategoryId a.ruleId a.confidence
    a.confidenceFactors a.matchedPattern

/-- Outcome of the correction branch of `_categorize_transaction`:
an assignment, a bare `return` (parent category missing), or a fall-through
to overrides and rules. -/
inductive CorrectionOutcome where
  | assigned (a : CategoryAssignment)
  | skippedReturn
  | fallthrough

/-- The correction branch of `Categorizer._categorize_transaction` (lines
68-132): fingerprint lookup; unknown category id falls through; a target
that is itself a subcategory is re-rooted at its parent (bare `return` if
the parent is gone); a subcategory that is unknown, top-level, or belongs to
a different parent is dropped (the correction still applies). -/
def correctionOutcome (cfg : Config) (d : TransactionData) : CorrectionOutcome :=
  match cfg.getMatchingCorrection (fingerprintOf d) with
  | none => .fallthrough
  | some correction =>
    match alookup correction.categoryId cfg.categories with
    | none => .fallthrough
    | some category =>
      let step : Option (String × Option String) :=
        match category.parentId with
        | some parentId =>
          if (alookup parentId cfg.categories).isNone then none
          else some (parentId, some correction.categoryId)
        | none => some (correction.categoryId, correction.subcategoryId)
      match step with
      | none => .skippedReturn
      | some (categoryId, subcategoryId0) =>
        let subcategoryId :=
          match subcategoryId0 with
          | none => none
          | some sid =>
            match alookup sid cfg.categories with
            | none => none
            | some subcat =>
              match subcat.parentId with
              | none => none
              | some sp => if sp ≠ categoryId then none else some sid
        .assigned
          { categoryId := categoryId
            source := "correction"
            subcategoryId := subcategoryId
            confidence := 1
            confidenceFactors := ["Imported from reviewed output"] }

/-- The manual-override branch (lines 134-159): first matching override; an
unknown category id falls through to rules; an unknown subcategory is
dropped. -/
def overrideStep (cfg : Config) (d : TransactionData) : Option CategoryAssignment :=
  match cfg.manualOverrides.find? (fun o => o.matchesOv d.date d.amount d.description) with
  | none => none
  | some override =>
    match alookup override.categoryId cfg.categories with
    | none => none
    | some _ =>
      let subcategoryId :=
        match override.subcategoryId with
        | none => none
        | some sid => if (alookup sid cfg.categories).isNone then none else some sid
      some
        { categoryId := override.categoryId
          source := "manual"
          subcategoryId := subcategoryId
          confidence := 1
          confidenceFactors := ["Manual override"] }

/-- The rule branch (lines 161-200): first rule (in the priority-sorted list
order) whose `matches` succeeds; a target that is a subcategory with a
resolvable parent is re-rooted, otherwise the raw target is assigned. -/
def ruleStep (cfg : Config) (d : TransactionData) : Option CategoryAssignment :=
  match cfg.categoryRules.findSome?
      (fun rule => (rule.matchesFn d.description d.amount d.accountId).map fun mr => (rule, mr)) with
  | none => none
  | some (rule, matchResult) =>
    let plain : CategoryAssignment :=
      { categoryId := rule.categoryId
        source := "rule"
        ruleId := some rule.id
        confidence := matchResult.confidence
        confidenceFactors := matchResult.factors
        matchedPattern := some matchResult.matched_value }
    match alookup rule.categoryId cfg.categories with
    | some category =>
      match category.parentId with
      | some parentId =>
        match alookup parentId cfg.categories with
        | some _ => some { plain with categoryId := parentId, subcategoryId := some rule.categoryId }
        | none => some plain
      | none => some plain
    | none => some plain

/-- `Categorizer._categorize_transaction` as a pure resolution on the
immutable transaction content: corrections, then overrides, then rules;
`none` leaves the transaction untouched. -/
def categorizeData (cfg : Config) (d : TransactionData) : Option CategoryAssignment :=
  match correctionOutcome cfg d with
  | .assigned a => some a
  | .skippedReturn => none
  | .fallthrough =>
    match overrideStep cfg d with
    | some a => some a
    | none => ruleStep cfg d

/-- `_categorize_transaction` applied to one transaction record. -/
def categorizeTransaction (cfg : Config) (t : Transaction) : Transaction :=
  match categorizeData cfg t.data with
  | some a => t.applyAssignment a
  | none => t

/-- `Categorizer.categorize`: categorize every transaction in place. -/
def categorize (cfg : Config) (transactions : List Transaction) : List Transaction :=
  transactions.map (categorizeTransaction cfg)

/-! ## processing/balance_calculator.py -/

/-- The guard `opening_date is not None and txn.date < opening_date` of
`_calculate_account_balances` line 80. -/
def preCutoff (openingDate : Option ℤ) (t : Transaction) : Bool :=
  match openingDate with
  | some d0 => decide (t.data.date < d0)
  | none => false

/-- The walk of `_calculate_account_balances` (lines 79-85): transactions
dated strictly before the opening-balance cutoff get `running_balance =
None` and leave the accumulator alone; all others add their signed amount
and record the running total. -/
def balanceWalk (openingDate : Option ℤ) : ℚ → List Transaction → List Transaction
  | _, [] => []
  | runningBalance, txn :: rest =>
    if preCutoff openingDate txn then
      { txn with runningBalance := none } :: balanceWalk openingDate runningBalance rest
    else
      let rb := runningBalance + txn.data.amount
      { txn with runningBalance := some rb } :: balanceWalk openingDate rb rest

/-- Sum of the signed amounts of the transactions not excluded by the
cutoff (used to state the closed form of the balance walk). -/
def qualifyingSum (openingDate : Option ℤ) (l : List Transaction) : ℚ :=
  ((l.filter fun t => !preCutoff openingDate t).map fun t => t.data.amount).sum

/-- Lines 62-66: `opening_balance = Decimal("0")` overridden by the account
config when the account exists and carries an opening balance. -/
def openingBalanceOf (cfg : Config) (accountId : String) : ℚ :=
  match alookup accountId cfg.accounts with
  | some a =>
    match a.openingBalance with
    | some ob => ob
    | none => 0
  | none => 0

/-- Line 77: `account.opening_balance_date if account else None`. -/
def openingDateOf (cfg : Config) (accountId : String) : Option ℤ :=
  match alookup accountId cfg.accounts with
  | some a => a.openingBalanceDate
  | none => none

/-- `BalanceCalculator._calculate_account_balances`: opening balance from
the account config (zero when the account or its balance is unset), stable
sort by the canonical key, then the balance walk. -/
def calculateAccountBalances (cfg : Config) (accountId : String)
    (transactions : List Transaction) : List Transaction :=
  balanceWalk (openingDateOf cfg accountId) (openingBalanceOf cfg accountId)
    (transactions.insertionSort canonLE)

/-- `BalanceCalculator.calculate_balances`: group by account (dict insertion
order) and process each account's transactions. -/
def calculateBalances (cfg : Config) (transactions : List Transaction) : List Transaction :=
  ((transactions.map fun t => t.data.accountId).dedup).flatMap fun accId =>
    calculateAccountBalances cfg accId (transactions.filter fun t => t.data.accountId = accId)

/-! ## processing/anomaly_detector.py : the fee/charge predicate -/

/-- `merchant_prefixes` (anomaly_detector.py line 116). -/
def merchantPrefixList : List String := ["TST*", "SQ *", "SQU*", "TOAST*"]

/-- `strong_keywords` (line 123). -/
def strongFeeKeywords : List String :=
  ["FEE", "PENALTY", "OVERDRAFT", "NSF", "LATE FEE", "ANNUAL FEE", "MONTHLY FEE"]

/-- `transfer_indicators` (line 129). -/
def transferIndicators : List String :=
  ["TRANSFER", "VENMO", "ZELLE", "PAYPAL", "ACH", "WIRE"]

/-- `weak_keywords` (line 135). -/
def weakFeeKeywords : List String := ["CHARGE"]

/-- `AnomalyDetector._is_fee` on the upper-cased description: merchant
point-of-sale prefixes are never fees; strong keywords (whole word) always
flag; transfer indicators (substring) then veto; weak keywords (whole word)
flag last. -/
def isFee (txnDescription : String) : Bool :=
  let description := strUpper txnDescription
  if merchantPrefixList.any (fun p => strStartsWith description p) then false
  else if strongFeeKeywords.any (fun keyword => wbSearch keyword description) then true
  else if transferIndicators.any (fun indicator => strContainsSub description indicator) then false
  else if weakFeeKeywords.any (fun keyword => wbSearch keyword description) then true
  else false

/-- The fee decision chain as the spec words it (§4.4): "known
point-of-sale description prefixes are always excluded; a strong keyword
set matched as whole words always flags; known transfer/payment-app
keywords short-circuit to non-fee; a weaker keyword set flags only in the
absence of a transfer indicator" — one boolean formula. -/
def isFeeSpec (txnDescription : String) : Bool :=
  let d := strUpper txnDescription
  !(merchantPrefixList.any fun p => strStartsWith d p) &&
    ((strongFeeKeywords.any fun keyword => wbSearch keyword d) ||
      (!(transferIndicators.any fun indicator => strContainsSub d indicator) &&
        (weakFeeKeywords.any fun keyword => wbSearch keyword d)))

/-! ## Concrete instances used by counterexamples and witnesses -/

/-- A deduplicator whose similarity oracle is never consulted on the
concrete inputs below (their normalized descriptions are equal, so the
exact-match branch answers first); defaults: threshold 0.9, tolerance 1. -/
def ddConst : Deduplicator := { simRatio := fun _ _ => 0 }

/-- A deduplicator whose similarity oracle always answers exactly 0.90. -/
def ddNinety : Deduplicator := { simRatio := fun _ _ => mkRat 9 10 }

/-- Transaction content: $42.00 at "acct1", description "STARBUCKS #445",
file "a.csv" line 1, with a date and an optional check number. -/
def ceData (date : ℤ) (check : Option String) : TransactionData :=
  { date := date, description := "STARBUCKS #445", amount := 42, accountId := "acct1",
    accountName := "Checking", sourceFile := "a.csv", sourceLine := some 1,
    checkNumber := check }

/-- Three transactions identical in date, description, amount, account,
source file and source line, differing only in check number. -/
def ceT1 : Transaction := { data := ceData 10 (some "1") }

/-- See `ceT1`. -/
def ceT2 : Transaction := { data := ceData 10 (some "2") }

/-- See `ceT1`. -/
def ceT3 : Transaction := { data := ceData 10 none }

/-- A three-day duplicate chain: same description and amount on days 100,
101, 102 (each adjacent pair within the 1-day tolerance, the outer pair
not). -/
def chainA : Transaction :=
  { data := { ceData 100 none with sourceLine := some 1 } }

/-- See `chainA`. -/
def chainB : Transaction :=
  { data := { ceData 101 none with sourceLine := some 2 } }

/-- See `chainA`. -/
def chainC : Transaction :=
  { data := { ceData 102 none with sourceLine := some 3 } }

/-- Two same-account same-amount transactions on distinct days with
distinct descriptions (so the similarity oracle decides). -/
def simT1 : TransactionData :=
  { date := 5, description := "AA", amount := 7, accountId := "a",
    accountName := "A", sourceFile := "f" }

/-- See `simT1`. -/
def simT2 : TransactionData := { simT1 with description := "AB" }

/-- See `simT1`: one day later. -/
def simT3 : TransactionData := { simT2 with date := 6 }

/-- Transaction content for the categorizer examples. -/
def catData : TransactionData :=
  { date := 5, description := "SHELL GAS", amount := 20, accountId := "a",
    accountName := "A", sourceFile := "f" }

/-- Config for the C3 counterexample: the correction targets top-level
"food" with subcategory "gas_sub", but "gas_sub" belongs to "transport";
a catch-all rule targeting "transport" would match if the correction fell
through. -/
def cfgC3 : Config :=
  { categories :=
      [("food", { id := "food" }), ("transport", { id := "transport" }),
        ("gas_sub", { id := "gas_sub", parentId := some "transport" })]
    categoryRules := [{ id := "r", categoryId := "transport" }]
    corrections :=
      [(fingerprintOf catData,
        { fingerprint := fingerprintOf catData, categoryId := "food",
          subcategoryId := some "gas_sub" })] }

/-- Like `cfgC3`, but the correction references an unknown category id. -/
def cfgC3unknown : Config :=
  { cfgC3 with
    corrections :=
      [(fingerprintOf catData,
        { fingerprint := fingerprintOf catData, categoryId := "nope" })] }

/-- A rule whose only specified criterion is one regex pattern, which the
safety validator rejects (nested quantifier). -/
def ruleAllRejected : CategoryRule :=
  mkCategoryRule (fun _ => none)
    { id := "r1", categoryId := "c", regexPatterns := ["(a+)+"] }

/-- A rule with no matching criteria at all. -/
def ruleNoCriteria : CategoryRule := { id := "r2", categoryId := "c" }

/-! # Theorems -/

/-- C1: constructing a MatchResult with confidence outside [0.0, 1.0] fails
with an error (it is never clamped), and every successfully constructed
MatchResult carries confidence in [0.0, 1.0]. -/
theorem c1_matchresult_confidence_range (matched : Bool) (confidence : ℚ)
    (mb mv : String) (fs : List String) :
    ((confidence < 0 ∨ 1 < confidence) →
      ∃ msg, mkMatchResult matched confidence mb mv fs = .error msg) ∧
    (∀ r, mkMatchResult matched confidence mb mv fs = .ok r →
      0 ≤ r.confidence ∧ r.confidence ≤ 1) := by
  unfold mkMatchResult
  by_cases h : 0 ≤ confidence ∧ confidence ≤ 1
  · refine ⟨fun hout => ?_, fun r hr => ?_⟩
    · rcases hout with h1 | h1
      · exact absurd h.1 (not_le.mpr h1)
      · exact absurd h.2 (not_le.mpr h1)
    · simp only [if_pos h] at hr
      cases hr
      exact h
  · refine ⟨fun _ => ⟨"Confidence must be between 0.0 and 1.0", if_neg h⟩, fun r hr => ?_⟩
    simp only [if_neg h] at hr
    cases hr

/-- Witness for C1 at confidence 2 (rejected) and confidence 1
(accepted). -/
theorem c1_witness :
    (∃ msg, mkMatchResult true 2 "keyword" "X" [] = .error msg) ∧
    (0 ≤ (1 : ℚ) ∧ (1 : ℚ) ≤ 1) :=
  ⟨(c1_matchresult_confidence_range true 2 "keyword" "X" []).1 (Or.inr (by norm_num)),
    (c1_matchresult_confidence_range true 1 "keyword" "X" []).2
      ⟨true, 1, "keyword", "X", []⟩ rfl⟩

/-- C8: the fee/charge predicate equals the spec's decision chain: no fee
for point-of-sale prefixes; strong whole-word keywords always flag, even
with a transfer indicator present; otherwise transfer indicators
short-circuit to non-fee; otherwise the weak whole-word keywords flag. -/
theorem c8_fee_decision_chain (description : String) :
    isFee description = isFeeSpec description := by
  simp only [isFee, isFeeSpec]
  split_ifs with h1 h2 h3 h4 <;> simp_all

/-- The content of a transaction is untouched by `assign_category`. -/
theorem applyAssignment_data (t : Transaction) (a : CategoryAssignment) :
    (t.applyAssignment a).data = t.data := rfl

/-- Categorizing a single transaction twice equals categorizing it once:
the resolution only reads the immutable content, and the assignment
overwrites every categorization field. -/
theorem categorizeTransaction_idem (cfg : Config) (t : Transaction) :
    categorizeTransaction cfg (categorizeTransaction cfg t) =
      categorizeTransaction cfg t := by
  unfold categorizeTransaction
  cases h : categorizeData cfg t.data with
  | none => simp [h]
  | some a =>
    have hdata : (t.applyAssignment a).data = t.data := rfl
    simp only [hdata, h]
    rfl

/-- C9: categorization is idempotent — re-running `categorize` on an
already-categorized list with the same configuration reproduces every
category, subcategory, source, confidence score and factor list. -/
theorem c9_categorize_idempotent (cfg : Config) (transactions : List Transaction) :
    categorize cfg (categorize cfg transactions) = categorize cfg transactions := by
  unfold categorize
  rw [List.map_map]
  exact List.map_congr_left fun t _ => categorizeTransaction_idem cfg t

/-- C6: a rule whose only specified criteria were regex patterns, all of
which the safety validator rejected or the compiler refused, matches no
transaction at all; a rule with no criteria specified at all (and active,
the constructor default) matches every transaction. -/
theorem c6_rejected_regex_vs_no_criteria (compile : String → Option (String → Bool))
    (rule : CategoryRule) (hkw : rule.keywords = []) (hmin : rule.amountMin = none)
    (hmax : rule.amountMax = none) (hacc : rule.accountIds = []) :
    (rule.regexPatterns ≠ [] →
      (∀ p ∈ rule.regexPatterns, isSafePattern p = false ∨ compile p = none) →
      ∀ description amount accountId,
        (mkCategoryRule compile rule).matchesFn description amount accountId = none) ∧
    (rule.regexPatterns = [] → rule.isActive = true →
      ∀ description amount accountId,
        ((mkCategoryRule compile rule).matchesFn description amount accountId).isSome = true) := by
  have ekw : (mkCategoryRule compile rule).keywords = rule.keywords := rfl
  have emin : (mkCategoryRule compile rule).amountMin = rule.amountMin := rfl
  have emax : (mkCategoryRule compile rule).amountMax = rule.amountMax := rfl
  have eacc : (mkCategoryRule compile rule).accountIds = rule.accountIds := rfl
  have eact : (mkCategoryRule compile rule).isActive = rule.isActive := rfl
  have epat : (mkCategoryRule compile rule).regexPatterns = rule.regexPatterns := rfl
  constructor
  · intro hne hrej description amount accountId
    have hcomp : (mkCategoryRule compile rule).compiledPatterns = [] := by
      simp only [mkCategoryRule]
      rw [List.filterMap_eq_nil_iff]
      intro p hp
      rcases hrej p hp with h | h
      · simp [h]
      · simp [h, Option.map_eq_none]
    obtain ⟨p, ps, hpp⟩ := List.exists_cons_of_ne_nil hne
    by_cases hact : rule.isActive
    · simp only [CategoryRule.matchesFn, ekw, emin, emax, eacc, eact, epat, hkw, hmin,
        hmax, hacc, hcomp, hpp, hact]
      simp [findRegexMatch]
    · simp only [CategoryRule.matchesFn, eact]
      simp [hact]
  · intro hpat0 hact description amount accountId
    simp only [CategoryRule.matchesFn, ekw, emin, emax, eacc, eact, epat, hkw, hmin,
      hmax, hacc, hpat0, hact]
    simp

/-- Witness for C6: the nested-quantifier pattern `(a+)+` is rejected by
the validator, so `ruleAllRejected` (regex-only criteria) matches nothing;
`ruleNoCriteria` matches an arbitrary transaction. -/
theorem c6_witness :
    ruleAllRejected.matchesFn "STARBUCKS #445" 42 "acct1" = none ∧
    (ruleNoCriteria.matchesFn "STARBUCKS #445" 42 "acct1").isSome = true := by
  constructor
  · exact (c6_rejected_regex_vs_no_criteria (fun _ => none)
      { id := "r1", categoryId := "c", regexPatterns := ["(a+)+"] }
      rfl rfl rfl rfl).1 (by decide) (fun p _ => Or.inr rfl) "STARBUCKS #445" 42 "acct1"
  · have h := (c6_rejected_regex_vs_no_criteria (fun _ => none) ruleNoCriteria
      rfl rfl rfl rfl).2 rfl rfl "STARBUCKS #445" 42 "acct1"
    simpa using h

/-- C5: for same-account, same-amount, non-conflicting-check transactions
with distinct normalized descriptions under the default thresholds, a
same-day pair is a duplicate exactly when the similarity ratio reaches the
0.95 same-day bar, and a one-day-apart pair exactly when it reaches the
0.90 general bar (so 0.90 similarity is rejected same-day and accepted one
day apart, boundary included). -/
theorem c5_similarity_thresholds (dd : Deduplicator) (t1 t2 : TransactionData)
    (hthr : dd.similarityThreshold = mkRat 9 10)
    (htol : dd.dateToleranceDays = 1)
    (hacc : t1.accountId = t2.accountId)
    (hamt : t1.amount = t2.amount)
    (hchk : checksConflict t1.checkNumber t2.checkNumber = false)
    (hdesc : strTrim (strLower t1.description) ≠ strTrim (strLower t2.description)) :
    (t1.date = t2.date →
      (dd.areDuplicates t1 t2 = true ↔
        mkRat 95 100 ≤
          dd.simRatio (strTrim (strLower t1.description)) (strTrim (strLower t2.description)))) ∧
    ((t1.date - t2.date).natAbs = 1 →
      (dd.areDuplicates t1 t2 = true ↔
        mkRat 9 10 ≤
          dd.simRatio (strTrim (strLower t1.description)) (strTrim (strLower t2.description)))) := by
  have hsim : dd.descriptionSimilarity t1.description t2.description =
      dd.simRatio (strTrim (strLower t1.description)) (strTrim (strLower t2.description)) := by
    simp only [Deduplicator.descriptionSimilarity]
    exact if_neg hdesc
  constructor
  · intro hdate
    have hdiff : (t1.date - t2.date).natAbs = 0 := by
      rw [hdate, sub_self]
      rfl
    simp only [Deduplicator.areDuplicates, hacc, hamt, hchk, htol, hdiff, hdate, hsim]
    rcases lt_or_le (dd.simRatio (strTrim (strLower t1.description))
        (strTrim (strLower t2.description))) (mkRat 95 100) with h | h
    · simp [h, not_le.mpr h]
    · simp [not_lt.mpr h, h]
  · intro hdiff
    have hdate : ¬t1.date = t2.date := by
      intro hd
      rw [hd, sub_self] at hdiff
      simp at hdiff
    simp only [Deduplicator.areDuplicates, hacc, hamt, hchk, htol, hdiff, hdate, hthr, hsim]
    rcases lt_or_le (dd.simRatio (strTrim (strLower t1.description))
        (strTrim (strLower t2.description))) (mkRat 9 10) with h | h
    · simp [h, not_le.mpr h]
    · simp [not_lt.mpr h, h]

/-- Witness for C5 at similarity exactly 0.90: the same-day pair is not
flagged (below the 0.95 same-day bar), the one-day-apart pair is flagged
(the 0.90 bar is inclusive). -/
theorem c5_witness :
    ddNinety.areDuplicates simT1 simT2 = false ∧
    ddNinety.areDuplicates simT1 simT3 = true := by
  have hsame := (c5_similarity_thresholds ddNinety simT1 simT2 rfl rfl rfl rfl rfl
    (by decide)).1 rfl
  have hnext := (c5_similarity_thresholds ddNinety simT1 simT3 rfl rfl rfl rfl rfl
    (by decide)).2 (by decide)
  constructor
  · cases hb : ddNinety.areDuplicates simT1 simT2
    · rfl
    · have := hsame.mp hb
      revert this
      decide
  · exact hnext.mpr (by decide)

/-- The qualifying sum over an empty walk is zero. -/
theorem qualifyingSum_nil (od : Option ℤ) : qualifyingSum od [] = 0 := rfl

/-- The qualifying sum separates its head. -/
theorem qualifyingSum_cons (od : Option ℤ) (t : Transaction) (l : List Transaction) :
    qualifyingSum od (t :: l) =
      (if preCutoff od t then 0 else t.data.amount) + qualifyingSum od l := by
  by_cases h : preCutoff od t <;>
    simp [qualifyingSum, List.filter_cons, h]

/-- Closed form of the balance walk: position `i` of the walk carries the
original transaction with `running_balance` absent when it predates the
cutoff, and otherwise equal to the start balance plus the sum of the
qualifying amounts among the first `i + 1` transactions. -/
theorem balanceWalk_getElem (od : Option ℤ) :
    ∀ (l : List Transaction) (bal : ℚ) (i : ℕ),
      (balanceWalk od bal l)[i]? = (l[i]?).map fun t =>
        if preCutoff od t then { t with runningBalance := none }
        else { t with runningBalance := some (bal + qualifyingSum od (l.take (i + 1))) }
  | [], bal, i => by simp [balanceWalk]
  | t :: rest, bal, i => by
    by_cases hc : preCutoff od t
    · simp only [balanceWalk]
      rw [if_pos hc]
      cases i with
      | zero => simp [hc]
      | succ j =>
        simp only [List.getElem?_cons_succ, List.take_succ_cons]
        rw [balanceWalk_getElem od rest bal j]
        cases rest[j]? with
        | none => rfl
        | some u =>
          by_cases hu : preCutoff od u <;>
            simp [hu, qualifyingSum_cons, hc]
    · simp only [balanceWalk]
      rw [if_neg hc]
      cases i with
      | zero =>
        simp [hc, qualifyingSum_cons, qualifyingSum_nil, List.take_succ_cons]
      | succ j =>
        simp only [List.getElem?_cons_succ, List.take_succ_cons]
        rw [balanceWalk_getElem od rest (bal + t.data.amount) j]
        cases rest[j]? with
        | none => rfl
        | some u =>
          by_cases hu : preCutoff od u <;>
            simp [hu, qualifyingSum_cons, hc, add_assoc]

/-- C7: per account, the balance pass walks the canonically sorted
transactions from the configured opening balance (zero when unset): a
transaction dated strictly before the opening-balance cutoff gets an absent
running balance and is excluded from the accumulator, every other
transaction records the opening balance plus the signed amounts of all
qualifying transactions up to and including itself. -/
theorem c7_balance_walk_closed_form (cfg : Config) (accountId : String)
    (transactions : List Transaction) (i : ℕ) :
    (calculateAccountBalances cfg accountId transactions)[i]? =
      ((transactions.insertionSort canonLE)[i]?).map fun t =>
        if preCutoff (openingDateOf cfg accountId) t then
          { t with runningBalance := none }
        else
          { t with runningBalance := some (openingBalanceOf cfg accountId + qualifyingSum (openingDateOf cfg accountId) ((transactions.insertionSort canonLE).take (i + 1))) } :=
  balanceWalk_getElem (openingDateOf cfg accountId)
    (transactions.insertionSort canonLE) (openingBalanceOf cfg accountId) i

/-! ## Deduplicator lemmas -/

/-- Two sorted lists that are permutations of each other coincide, provided
the order is antisymmetric on the members of the first. -/
theorem sorted_perm_eq {α : Type} {r : α → α → Prop} :
    ∀ {l₁ l₂ : List α},
      (∀ a ∈ l₁, ∀ b ∈ l₁, r a b → r b a → a = b) →
      l₁.Perm l₂ → l₁.Sorted r → l₂.Sorted r → l₁ = l₂ := by
  intro l₁
  induction l₁ with
  | nil =>
    intro l₂ _ hp _ _
    exact hp.nil_eq
  | cons a t₁ ih =>
    intro l₂ hanti hp hs₁ hs₂
    cases l₂ with
    | nil => exact absurd hp.symm.nil_eq (by simp)
    | cons b t₂ =>
      have hb1 : b ∈ a :: t₁ := hp.symm.subset (List.mem_cons_self b t₂)
      have hab : a = b := by
        have ha2 : a ∈ b :: t₂ := hp.subset (List.mem_cons_self a t₁)
        rcases List.mem_cons.mp ha2 with h | ha2'
        · exact h
        rcases List.mem_cons.mp hb1 with h | hb1'
        · exact h.symm
        have hrab : r a b := (List.sorted_cons.mp hs₁).1 b hb1'
        have hrba : r b a := (List.sorted_cons.mp hs₂).1 a ha2'
        exact hanti a (List.mem_cons_self a t₁) b hb1 hrab hrba
      subst hab
      have hp' : t₁.Perm t₂ := hp.cons_inv
      have ht := ih
        (fun x hx y hy => hanti x (List.mem_cons_of_mem a hx) y (List.mem_cons_of_mem a hy))
        hp' (List.sorted_cons.mp hs₁).2 (List.sorted_cons.mp hs₂).2
      rw [ht]

/-- Permutations of lists of at most one element are equalities. -/
theorem perm_short_eq {α : Type} : ∀ {l₁ l₂ : List α},
    l₁.Perm l₂ → l₁.length ≤ 1 → l₁ = l₂ := by
  intro l₁ l₂ hp hlen
  cases l₁ with
  | nil => exact hp.nil_eq
  | cons a t =>
    cases t with
    | nil =>
      cases l₂ with
      | nil => exact absurd hp.symm.nil_eq (by simp)
      | cons b t₂ =>
        have hlen2 : t₂.length = 0 := by
          have := hp.length_eq
          simp only [List.length_cons, List.length_nil] at this
          omega
        rw [List.length_eq_zero] at hlen2
        subst hlen2
        have hb : a = b := by
          have := hp.subset (List.mem_cons_self a [])
          simpa using this
        rw [hb]
    | cons c t' => simp at hlen

/-- `innerPass` preserves the length of the group. -/
theorem innerPass_length (dd : Deduplicator) (u : TransactionData)
    (rest : List Transaction) : (dd.innerPass u rest).length = rest.length := by
  simp [Deduplicator.innerPass]

/-- The per-element step of `innerPass` never changes the content. -/
theorem innerPass_elem_data (dd : Deduplicator) (u : TransactionData) (t2 : Transaction) :
    (if dd.areDuplicates u t2.data && !t2.isDuplicate then t2.flagAsDuplicate u else t2).data
      = t2.data := by
  by_cases h : dd.areDuplicates u t2.data && !t2.isDuplicate <;>
    simp [h, Transaction.flagAsDuplicate]

/-- `innerPass` preserves canonical-key sortedness (it only flips flags). -/
theorem innerPass_pairwise (dd : Deduplicator) (u : TransactionData)
    {rest : List Transaction} (h : rest.Pairwise canonLE) :
    (dd.innerPass u rest).Pairwise canonLE := by
  simp only [Deduplicator.innerPass]
  rw [List.pairwise_map]
  refine h.imp ?_
  intro a b hab
  show canonKey _ ≤ canonKey _
  rw [innerPass_elem_data, innerPass_elem_data]
  exact hab

/-- Every new flag produced by the sorted pass references a canonically
earlier (or tied) original: invariant form over the fuel-indexed loop. -/
theorem flag_earlier_aux (dd : Deduplicator) :
    ∀ (fuel : ℕ) (l : List Transaction),
      l.Pairwise canonLE →
      (∀ t ∈ l, t.isDuplicate = true →
        ∃ u, t.duplicateOf = some u ∧ canonKey u ≤ canonKey t.data) →
      ∀ t ∈ dd.outerPassAux fuel l, t.isDuplicate = true →
        ∃ u, t.duplicateOf = some u ∧ canonKey u ≤ canonKey t.data
  | 0, l, _, hin => by simpa [Deduplicator.outerPassAux] using hin
  | _ + 1, [], _, _ => by simp [Deduplicator.outerPassAux]
  | fuel + 1, t1 :: rest, hpair, hin => by
    have hpairRest : rest.Pairwise canonLE := (List.pairwise_cons.mp hpair).2
    have hhead : ∀ x ∈ rest, canonLE t1 x := (List.pairwise_cons.mp hpair).1
    by_cases h1 : t1.isDuplicate
    · intro t ht hdup
      rw [show dd.outerPassAux (fuel + 1) (t1 :: rest) = t1 :: dd.outerPassAux fuel rest by
        simp [Deduplicator.outerPassAux, h1]] at ht
      rcases List.mem_cons.mp ht with rfl | ht'
      · exact hin t (List.mem_cons_self t rest) hdup
      · exact flag_earlier_aux dd fuel rest hpairRest
          (fun s hs => hin s (List.mem_cons_of_mem _ hs)) t ht' hdup
    · intro t ht hdup
      rw [show dd.outerPassAux (fuel + 1) (t1 :: rest)
            = t1 :: dd.outerPassAux fuel (dd.innerPass t1.data rest) by
        simp [Deduplicator.outerPassAux, h1]] at ht
      rcases List.mem_cons.mp ht with rfl | ht'
      · exact absurd hdup (by simp [h1])
      · refine flag_earlier_aux dd fuel (dd.innerPass t1.data rest)
          (innerPass_pairwise dd t1.data hpairRest) ?_ t ht' hdup
        intro s hs hsdup
        rcases List.mem_map.mp hs with ⟨s0, hs0, rfl⟩
        by_cases hc : dd.areDuplicates t1.data s0.data && !s0.isDuplicate
        · refine ⟨t1.data, ?_, ?_⟩
          · simp [hc, Transaction.flagAsDuplicate]
          · have hle : canonKey t1.data ≤ canonKey s0.data := hhead s0 hs0
            simpa [hc, Transaction.flagAsDuplicate] using hle
        · rw [if_neg hc] at hsdup ⊢
          exact hin s0 (List.mem_cons_of_mem _ hs0) hsdup

/-- Every flag present after the pass points (via `E`, the contents of the
already-emitted unflagged sources, initially empty) to an unflagged
transaction that survives in the output. -/
theorem flag_witness_aux (dd : Deduplicator) :
    ∀ (fuel : ℕ) (l : List Transaction) (E : List TransactionData),
      (∀ t ∈ l, t.isDuplicate = true → ∃ u, t.duplicateOf = some u ∧ u ∈ E) →
      ∀ t ∈ dd.outerPassAux fuel l, t.isDuplicate = true →
        ∃ u, t.duplicateOf = some u ∧
          (u ∈ E ∨ ∃ s ∈ dd.outerPassAux fuel l, s.data = u ∧ s.isDuplicate = false)
  | 0, l, E, hin => by
    intro t ht hdup
    rcases hin t (by simpa [Deduplicator.outerPassAux] using ht) hdup with ⟨u, hu, huE⟩
    exact ⟨u, hu, Or.inl huE⟩
  | _ + 1, [], _, _ => by simp [Deduplicator.outerPassAux]
  | fuel + 1, t1 :: rest, E, hin => by
    by_cases h1 : t1.isDuplicate
    · intro t ht hdup
      rw [show dd.outerPassAux (fuel + 1) (t1 :: rest) = t1 :: dd.outerPassAux fuel rest by
        simp [Deduplicator.outerPassAux, h1]] at ht ⊢
      rcases List.mem_cons.mp ht with rfl | ht'
      · rcases hin t (List.mem_cons_self t rest) hdup with ⟨u, hu, huE⟩
        exact ⟨u, hu, Or.inl huE⟩
      · rcases flag_witness_aux dd fuel rest E
            (fun s hs => hin s (List.mem_cons_of_mem _ hs)) t ht' hdup with
          ⟨u, hu, hcase⟩
        rcases hcase with huE | ⟨s, hs, hsd, hsf⟩
        · exact ⟨u, hu, Or.inl huE⟩
        · exact ⟨u, hu, Or.inr ⟨s, List.mem_cons_of_mem _ hs, hsd, hsf⟩⟩
    · intro t ht hdup
      rw [show dd.outerPassAux (fuel + 1) (t1 :: rest)
            = t1 :: dd.outerPassAux fuel (dd.innerPass t1.data rest) by
        simp [Deduplicator.outerPassAux, h1]] at ht ⊢
      rcases List.mem_cons.mp ht with rfl | ht'
      · exact absurd hdup (by simp [h1])
      · have hin' : ∀ s ∈ dd.innerPass t1.data rest, s.isDuplicate = true →
            ∃ u, s.duplicateOf = some u ∧ u ∈ t1.data :: E := by
          intro s hs hsdup
          rcases List.mem_map.mp hs with ⟨s0, hs0, rfl⟩
          by_cases hc : dd.areDuplicates t1.data s0.data && !s0.isDuplicate
          · exact ⟨t1.data, by simp [hc, Transaction.flagAsDuplicate],
              List.mem_cons_self _ _⟩
          · rw [if_neg hc] at hsdup ⊢
            rcases hin s0 (List.mem_cons_of_mem _ hs0) hsdup with ⟨u, hu, huE⟩
            exact ⟨u, hu, List.mem_cons_of_mem _ huE⟩
        rcases flag_witness_aux dd fuel (dd.innerPass t1.data rest) (t1.data :: E)
            hin' t ht' hdup with ⟨u, hu, hcase⟩
        rcases hcase with huE' | ⟨s, hs, hsd, hsf⟩
        · rcases List.mem_cons.mp huE' with rfl | huE
          · exact ⟨t1.data, hu, Or.inr ⟨t1, List.mem_cons_self t1 _, rfl, by simp [h1]⟩⟩
          · exact ⟨u, hu, Or.inl huE⟩
        · exact ⟨u, hu, Or.inr ⟨s, List.mem_cons_of_mem _ hs, hsd, hsf⟩⟩

/-- A transaction that enters the pass already flagged leaves it verbatim
(in particular its `duplicate_of` reference is never overwritten). -/
theorem flagged_preserved_aux (dd : Deduplicator) :
    ∀ (fuel : ℕ) (l : List Transaction) (t : Transaction),
      t ∈ l → t.isDuplicate = true → t ∈ dd.outerPassAux fuel l
  | 0, l, t => by
    intro ht _
    simpa [Deduplicator.outerPassAux] using ht
  | _ + 1, [], t => by simp
  | fuel + 1, t1 :: rest, t => by
    intro ht hdup
    by_cases h1 : t1.isDuplicate
    · rw [show dd.outerPassAux (fuel + 1) (t1 :: rest) = t1 :: dd.outerPassAux fuel rest by
        simp [Deduplicator.outerPassAux, h1]]
      rcases List.mem_cons.mp ht with rfl | ht'
      · exact List.mem_cons_self t _
      · exact List.mem_cons_of_mem _ (flagged_preserved_aux dd fuel rest t ht' hdup)
    · rw [show dd.outerPassAux (fuel + 1) (t1 :: rest)
            = t1 :: dd.outerPassAux fuel (dd.innerPass t1.data rest) by
        simp [Deduplicator.outerPassAux, h1]]
      rcases List.mem_cons.mp ht with rfl | ht'
      · exact absurd hdup (by simp [h1])
      · refine List.mem_cons_of_mem _ (flagged_preserved_aux dd fuel _ t ?_ hdup)
        have : (if dd.areDuplicates t1.data t.data && !t.isDuplicate
            then t.flagAsDuplicate t1.data else t) = t := by
          rw [if_neg]
          simp [hdup]
        exact this ▸ List.mem_map_of_mem _ ht'

/-- Every flag in the output of the pass is either an input flag (carried
verbatim) or was set by a source that was unflagged in the input. -/
theorem newflag_sources_aux (dd : Deduplicator) :
    ∀ (fuel : ℕ) (l : List Transaction) (E : List TransactionData),
      ∀ t ∈ dd.outerPassAux fuel l, t.isDuplicate = true →
        t ∈ l ∨ ∃ u, t.duplicateOf = some u ∧
          (u ∈ E ∨ ∃ s ∈ l, s.data = u ∧ s.isDuplicate = false)
  | 0, l, E => by
    intro t ht _
    exact Or.inl (by simpa [Deduplicator.outerPassAux] using ht)
  | _ + 1, [], E => by simp [Deduplicator.outerPassAux]
  | fuel + 1, t1 :: rest, E => by
    intro t ht hdup
    by_cases h1 : t1.isDuplicate
    · rw [show dd.outerPassAux (fuel + 1) (t1 :: rest) = t1 :: dd.outerPassAux fuel rest by
        simp [Deduplicator.outerPassAux, h1]] at ht
      rcases List.mem_cons.mp ht with rfl | ht'
      · exact Or.inl (List.mem_cons_self t rest)
      · rcases newflag_sources_aux dd fuel rest E t ht' hdup with htl | ⟨u, hu, hcase⟩
        · exact Or.inl (List.mem_cons_of_mem _ htl)
        · rcases hcase with huE | ⟨s, hs, hsd, hsf⟩
          · exact Or.inr ⟨u, hu, Or.inl huE⟩
          · exact Or.inr ⟨u, hu, Or.inr ⟨s, List.mem_cons_of_mem _ hs, hsd, hsf⟩⟩
    · rw [show dd.outerPassAux (fuel + 1) (t1 :: rest)
            = t1 :: dd.outerPassAux fuel (dd.innerPass t1.data rest) by
        simp [Deduplicator.outerPassAux, h1]] at ht
      rcases List.mem_cons.mp ht with rfl | ht'
      · exact Or.inl (List.mem_cons_self t rest)
      · rcases newflag_sources_aux dd fuel (dd.innerPass t1.data rest) (t1.data :: E)
            t ht' hdup with htl | ⟨u, hu, hcase⟩
        · rcases List.mem_map.mp htl with ⟨s0, hs0, rfl⟩
          by_cases hc : dd.areDuplicates t1.data s0.data && !s0.isDuplicate
          · refine Or.inr ⟨t1.data, by simp [hc, Transaction.flagAsDuplicate], Or.inr
              ⟨t1, List.mem_cons_self t1 _, rfl, by simp [h1]⟩⟩
          · rw [if_neg hc]
            exact Or.inl (List.mem_cons_of_mem _ hs0)
        · rcases hcase with huE' | ⟨s, hs, hsd, hsf⟩
          · rcases List.mem_cons.mp huE' with rfl | huE
            · exact Or.inr ⟨t1.data, hu, Or.inr ⟨t1, List.mem_cons_self t1 _, rfl, by simp [h1]⟩⟩
            · exact Or.inr ⟨u, hu, Or.inl huE⟩
          · rcases List.mem_map.mp hs with ⟨s0, hs0, rfl⟩
            by_cases hc : dd.areDuplicates t1.data s0.data && !s0.isDuplicate
            · rw [if_pos hc] at hsf
              exact absurd hsf (by simp [Transaction.flagAsDuplicate])
            · rw [if_neg hc] at hsd hsf
              exact Or.inr ⟨u, hu, Or.inr ⟨s0, List.mem_cons_of_mem _ hs0, hsd, hsf⟩⟩

/-- Processing one `(account_id, amount)` partition gives the same list for
any two orderings of the input, provided transactions that agree on account
and canonical key are identical records. -/
theorem processGroup_eq (dd : Deduplicator) (l₁ l₂ : List Transaction)
    (key : String × ℚ) (hperm : l₁.Perm l₂)
    (hkey : ∀ a ∈ l₁, ∀ b ∈ l₁, a.data.accountId = b.data.accountId →
      canonKey a.data = canonKey b.data → a = b) :
    (if (l₁.filter fun t => partKey t = key).length < 2 then
        l₁.filter fun t => partKey t = key
      else dd.outerPass ((l₁.filter fun t => partKey t = key).insertionSort canonLE)) =
    (if (l₂.filter fun t => partKey t = key).length < 2 then
        l₂.filter fun t => partKey t = key
      else dd.outerPass ((l₂.filter fun t => partKey t = key).insertionSort canonLE)) := by
  have hpf : (l₁.filter fun t => partKey t = key).Perm
      (l₂.filter fun t => partKey t = key) := hperm.filter _
  have hflen : (l₁.filter fun t => partKey t = key).length
      = (l₂.filter fun t => partKey t = key).length := hpf.length_eq
  by_cases hlen : (l₁.filter fun t => partKey t = key).length < 2
  · rw [if_pos hlen, if_pos (hflen ▸ hlen)]
    exact perm_short_eq hpf (by omega)
  · rw [if_neg hlen, if_neg (hflen ▸ hlen)]
    congr 1
    apply sorted_perm_eq (r := canonLE)
    · intro a ha b hb hab hba
      have ha' : a ∈ l₁.filter fun t => partKey t = key :=
        (List.perm_insertionSort canonLE _).subset ha
      have hb' : b ∈ l₁.filter fun t => partKey t = key :=
        (List.perm_insertionSort canonLE _).subset hb
      have hak : partKey a = key := by
        have := (List.mem_filter.mp ha').2
        simpa using this
      have hbk : partKey b = key := by
        have := (List.mem_filter.mp hb').2
        simpa using this
      have hacc : a.data.accountId = b.data.accountId := by
        have : partKey a = partKey b := hak.trans hbk.symm
        exact congrArg Prod.fst this
      exact hkey a (List.mem_of_mem_filter ha') b (List.mem_of_mem_filter hb') hacc
        (le_antisymm hab hba)
    · exact (List.perm_insertionSort canonLE _).trans
        (hpf.trans (List.perm_insertionSort canonLE _).symm)
    · exact List.sorted_insertionSort canonLE _
    · exact List.sorted_insertionSort canonLE _

/-- C2 (amended): `find_duplicates` is order-independent — two inputs with
the same multiset of transactions produce, up to permutation, the same
flagged output, and every flagged transaction references a canonically
earlier (or identical) original — provided any two transactions that agree
on account id and the canonical key (date, description, amount, source
file, source line) are fully identical records (in particular share a check
number), and nothing is flagged on entry. -/
theorem c2_find_duplicates_order_independent (dd : Deduplicator)
    (l₁ l₂ : List Transaction) (hperm : l₁.Perm l₂)
    (hkey : ∀ a ∈ l₁, ∀ b ∈ l₁, a.data.accountId = b.data.accountId →
      canonKey a.data = canonKey b.data → a = b)
    (hflags : ∀ t ∈ l₁, t.isDuplicate = false) :
    (dd.findDuplicates l₁).Perm (dd.findDuplicates l₂) ∧
    (∀ t ∈ dd.findDuplicates l₁, t.isDuplicate = true →
      ∃ u, t.duplicateOf = some u ∧ canonKey u ≤ canonKey t.data) := by
  constructor
  · unfold Deduplicator.findDuplicates
    have hfun :
        (fun key => if (l₁.filter fun t => partKey t = key).length < 2 then
            l₁.filter fun t => partKey t = key
          else dd.outerPass ((l₁.filter fun t => partKey t = key).insertionSort canonLE)) =
        (fun key => if (l₂.filter fun t => partKey t = key).length < 2 then
            l₂.filter fun t => partKey t = key
          else dd.outerPass ((l₂.filter fun t => partKey t = key).insertionSort canonLE)) :=
      funext fun key => processGroup_eq dd l₁ l₂ key hperm hkey
    show (((l₁.map partKey).dedup).flatMap _).Perm (((l₂.map partKey).dedup).flatMap _)
    rw [hfun]
    exact ((hperm.map partKey).dedup).flatMap_right _
  · intro t ht hdup
    rcases List.mem_flatMap.mp ht with ⟨key, _, htg⟩
    by_cases hlen : (l₁.filter fun x => partKey x = key).length < 2
    · rw [if_pos hlen] at htg
      have := hflags t (List.mem_of_mem_filter htg)
      rw [this] at hdup
      cases hdup
    · rw [if_neg hlen] at htg
      refine flag_earlier_aux dd _ _ (List.sorted_insertionSort canonLE _) ?_ t htg hdup
      intro s hs hsdup
      have hs1 : s ∈ l₁ := List.mem_of_mem_filter
        ((List.perm_insertionSort canonLE _).subset hs)
      rw [hflags s hs1] at hsdup
      cases hsdup

/-- Witness for C2 at a two-element input with distinct canonical keys, in
both orders; the flag produced references the canonically earlier
original. -/
theorem c2_witness :
    (ddConst.findDuplicates [chainA, chainB]).Perm
      (ddConst.findDuplicates [chainB, chainA]) ∧
    (∃ u, (chainB.flagAsDuplicate chainA.data).duplicateOf = some u ∧
      canonKey u ≤ canonKey (chainB.flagAsDuplicate chainA.data).data) := by
  have h := c2_find_duplicates_order_independent ddConst [chainA, chainB] [chainB, chainA]
    (by decide) (by decide) (by decide)
  exact ⟨h.1, h.2 (chainB.flagAsDuplicate chainA.data) (by decide) (by decide)⟩

/-- Counterexample to C2 as stated: three transactions with identical
dates, descriptions, amounts, account ids, source files and source lines —
differing only in their check numbers ("1", "2", and absent) — form the
same multiset in both input orders, yet one order flags one transaction
and the other order flags two.  The canonical sort key ignores the check
number, so the stable sort preserves the run-dependent input order among
the tied transactions, and the check-number guard then breaks different
pairs. -/
theorem c2_counterexample :
    ([ceT1, ceT2, ceT3] : List Transaction).Perm [ceT3, ceT1, ceT2] ∧
    (∀ t ∈ ([ceT1, ceT2, ceT3] : List Transaction), t.isDuplicate = false) ∧
    (ddConst.findDuplicates [ceT1, ceT2, ceT3]).countP (fun t => t.isDuplicate) = 1 ∧
    (ddConst.findDuplicates [ceT3, ceT1, ceT2]).countP (fun t => t.isDuplicate) = 2 :=
  ⟨by decide, by decide, by decide, by decide⟩

/-- C4 (amended): a transaction already flagged as a duplicate is skipped
as the earlier side of pairs — it can never cause another transaction to be
flagged — and is never itself re-flagged as a target: every flagged input
transaction appears verbatim in the output, and every flagged output
transaction is either an input flag or references the content of an input
transaction that was unflagged (and hence usable as a source). -/
theorem c4_flagged_source_target_amended (dd : Deduplicator) (l : List Transaction) :
    (∀ t ∈ l, t.isDuplicate = true → t ∈ dd.findDuplicates l) ∧
    (∀ t ∈ dd.findDuplicates l, t.isDuplicate = true →
      t ∈ l ∨ ∃ u, t.duplicateOf = some u ∧
        ∃ s ∈ l, s.data = u ∧ s.isDuplicate = false) := by
  constructor
  · intro t ht hdup
    have hkmem : partKey t ∈ (l.map partKey).dedup := by
      rw [List.mem_dedup]
      exact List.mem_map_of_mem partKey ht
    have htf : t ∈ l.filter fun x => partKey x = partKey t := by
      rw [List.mem_filter]
      exact ⟨ht, by simp⟩
    refine List.mem_flatMap.mpr ⟨partKey t, hkmem, ?_⟩
    by_cases hlen : (l.filter fun x => partKey x = partKey t).length < 2
    · rw [if_pos hlen]
      exact htf
    · rw [if_neg hlen]
      exact flagged_preserved_aux dd _ _ t
        ((List.perm_insertionSort canonLE _).mem_iff.mpr htf) hdup
  · intro t ht hdup
    rcases List.mem_flatMap.mp ht with ⟨key, _, htg⟩
    by_cases hlen : (l.filter fun x => partKey x = key).length < 2
    · rw [if_pos hlen] at htg
      exact Or.inl (List.mem_of_mem_filter htg)
    · rw [if_neg hlen] at htg
      rcases newflag_sources_aux dd _ _ [] t htg hdup with htl | ⟨u, hu, hcase⟩
      · exact Or.inl (List.mem_of_mem_filter
          ((List.perm_insertionSort canonLE _).subset htl))
      · rcases hcase with huE | ⟨s, hs, hsd, hsf⟩
        · exact absurd huE (List.not_mem_nil u)
        · exact Or.inr ⟨u, hu, s, List.mem_of_mem_filter
            ((List.perm_insertionSort canonLE _).subset hs), hsd, hsf⟩

/-- Witness for C4: a pre-flagged transaction passes through verbatim, and
the flag produced on a fresh two-element run references the unflagged
first transaction. -/
theorem c4_witness :
    (chainB.flagAsDuplicate chainA.data) ∈
      ddConst.findDuplicates [chainA, chainB.flagAsDuplicate chainA.data] ∧
    ((chainB.flagAsDuplicate chainA.data) ∈ [chainA, chainB.flagAsDuplicate chainA.data] ∨
      ∃ u, (chainB.flagAsDuplicate chainA.data).duplicateOf = some u ∧
        ∃ s ∈ [chainA, chainB.flagAsDuplicate chainA.data],
          s.data = u ∧ s.isDuplicate = false) := by
  have h := c4_flagged_source_target_amended ddConst
    [chainA, chainB.flagAsDuplicate chainA.data]
  have hmem := h.1 (chainB.flagAsDuplicate chainA.data) (by decide) (by decide)
  exact ⟨hmem, h.2 _ hmem (by decide)⟩

/-- Counterexample to C4 as stated: in the chain A (day 100), B (day 101),
C (day 102) with identical descriptions and amounts, the pass flags B as a
duplicate of A; B would qualify as the earlier side against C
(`_are_duplicates` holds for the pair), and C is unflagged — but the code
skips flagged B as a source (`if txn1.is_duplicate: continue`), so C stays
unflagged, contradicting the claim that a flagged transaction is still
compared as the source of further pairs. -/
theorem c4_counterexample :
    ddConst.findDuplicates [chainA, chainB, chainC] =
      [chainA, chainB.flagAsDuplicate chainA.data, chainC] ∧
    ddConst.areDuplicates chainB.data chainC.data = true ∧
    chainC.isDuplicate = false :=
  ⟨by decide, by decide, by decide⟩

/-- C10: when nothing is flagged on entry, duplicate references never
chain — every transaction flagged by `find_duplicates` references the
content of a transaction that is present in the output and is itself not
flagged. -/
theorem c10_duplicate_references_never_chain (dd : Deduplicator)
    (l : List Transaction) (hflags : ∀ t ∈ l, t.isDuplicate = false) :
    ∀ t ∈ dd.findDuplicates l, t.isDuplicate = true →
      ∃ u, t.duplicateOf = some u ∧
        ∃ s ∈ dd.findDuplicates l, s.data = u ∧ s.isDuplicate = false := by
  intro t ht hdup
  rcases List.mem_flatMap.mp ht with ⟨key, hkmem, htg⟩
  by_cases hlen : (l.filter fun x => partKey x = key).length < 2
  · rw [if_pos hlen] at htg
    have := hflags t (List.mem_of_mem_filter htg)
    rw [this] at hdup
    cases hdup
  · rw [if_neg hlen] at htg
    have hin : ∀ s ∈ (l.filter fun x => partKey x = key).insertionSort canonLE,
        s.isDuplicate = true → ∃ u, s.duplicateOf = some u ∧ u ∈ ([] : List TransactionData) := by
      intro s hs hsdup
      have := hflags s (List.mem_of_mem_filter ((List.perm_insertionSort canonLE _).subset hs))
      rw [this] at hsdup
      cases hsdup
    rcases flag_witness_aux dd _ _ [] hin t htg hdup with ⟨u, hu, hcase⟩
    rcases hcase with huE | ⟨s, hs, hsd, hsf⟩
    · exact absurd huE (List.not_mem_nil u)
    · refine ⟨u, hu, s, ?_, hsd, hsf⟩
      refine List.mem_flatMap.mpr ⟨key, hkmem, ?_⟩
      rw [if_neg hlen]
      exact hs

/-- Witness for C10 on a fresh two-element duplicate pair: the flagged
element references an unflagged original in the output. -/
theorem c10_witness :
    ∃ u, (chainB.flagAsDuplicate chainA.data).duplicateOf = some u ∧
      ∃ s ∈ ddConst.findDuplicates [chainA, chainB], s.data = u ∧ s.isDuplicate = false :=
  c10_duplicate_references_never_chain ddConst [chainA, chainB] (by decide)
    (chainB.flagAsDuplicate chainA.data) (by decide) (by decide)

/-- C3 (amended): for a fingerprint-matched correction, an unknown category
id skips the correction and falls through to overrides and then rules; but
a correction whose (top-level) category resolves while its referenced
subcategory is unknown, top-level, or belongs to a different parent is NOT
skipped — only the subcategory is dropped, and the correction is still
applied with source "correction" and confidence 1. -/
theorem c3_correction_validation_amended (cfg : Config) (d : TransactionData)
    (corr : CategoryCorrection)
    (hc : cfg.getMatchingCorrection (fingerprintOf d) = some corr) :
    (alookup corr.categoryId cfg.categories = none →
      categorizeData cfg d =
        (match overrideStep cfg d with
         | some a => some a
         | none => ruleStep cfg d)) ∧
    (∀ category, alookup corr.categoryId cfg.categories = some category →
      category.parentId = none →
      ∀ sid, corr.subcategoryId = some sid →
      (alookup sid cfg.categories = none ∨
        (∃ subcat, alookup sid cfg.categories = some subcat ∧
          (subcat.parentId = none ∨
            ∃ sp, subcat.parentId = some sp ∧ sp ≠ corr.categoryId))) →
      categorizeData cfg d =
        some { categoryId := corr.categoryId, source := "correction",
               subcategoryId := none, ruleId := none, confidence := 1,
               confidenceFactors := ["Imported from reviewed output"],
               matchedPattern := none }) := by
  constructor
  · intro hnone
    unfold categorizeData correctionOutcome
    rw [hc]
    dsimp only
    rw [hnone]
  · intro category hcat hpar sid hsid hbad
    unfold categorizeData correctionOutcome
    rw [hc]
    dsimp only
    rw [hcat]
    dsimp only
    rw [hpar, hsid]
    dsimp only
    rcases hbad with hnone | ⟨subcat, hsub, hcase⟩
    · rw [hnone]
    · rw [hsub]
      dsimp only
      rcases hcase with hsp | ⟨sp, hsp, hne⟩
      · rw [hsp]
      · rw [hsp]
        dsimp only
        rw [if_pos hne]

/-- Counterexample to C3 as stated: the correction targets top-level "food"
with subcategory "gas_sub", which belongs to "transport" — per the claim
the correction should be skipped entirely and categorization should fall
through to the rule (source "rule", category "transport", which does
match).  The code instead applies the correction with the subcategory
dropped: source "correction", category "food". -/
theorem c3_counterexample :
    (categorizeTransaction cfgC3 { data := catData }).categorySource = "correction" ∧
    (categorizeTransaction cfgC3 { data := catData }).category = some "food" ∧
    (categorizeTransaction cfgC3 { data := catData }).subcategory = none ∧
    alookup "gas_sub" cfgC3.categories
      = some { id := "gas_sub", parentId := some "transport" } ∧
    (ruleStep cfgC3 catData).isSome = true :=
  ⟨by decide, by decide, by decide, by decide, by decide⟩

/-- Witness for C3: the mismatched-subcategory correction of `cfgC3` is
applied with the subcategory dropped, and the unknown-category correction
of `cfgC3unknown` falls through to overrides and rules. -/
theorem c3_witness :
    categorizeData cfgC3 catData =
      some { categoryId := "food", source := "correction", subcategoryId := none,
             ruleId := none, confidence := 1,
             confidenceFactors := ["Imported from reviewed output"],
             matchedPattern := none } ∧
    categorizeData cfgC3unknown catData =
      (match overrideStep cfgC3unknown catData with
       | some a => some a
       | none => ruleStep cfgC3unknown catData) := by
  constructor
  · exact (c3_correction_validation_amended cfgC3 catData
      { fingerprint := fingerprintOf catData, categoryId := "food",
        subcategoryId := some "gas_sub" } (by decide)).2
      { id := "food" } (by decide) rfl "gas_sub" rfl
      (Or.inr ⟨{ id := "gas_sub", parentId := some "transport" }, by decide,
        Or.inr ⟨"transport", rfl, by decide⟩⟩)
  · exact (c3_correction_validation_amended cfgC3unknown catData
      { fingerprint := fingerprintOf catData, categoryId := "nope" } (by decide)).1
      (by decide)

end FinCon
